import Mathlib

/-!
Verification of the extension API and context helpers of the `jsonschema`
Go library, shallowly embedded in Lean.  Pure Go functions become Lean
functions; Go map mutation becomes functional update; a Go `panic` is made
explicit in a `GoOutcome` result type; the possibly non-terminating
`powerOf` reduction loop is embedded with explicit fuel.
-/

/-- JSON values, as decoded by `encoding/json` with `UseNumber`
(numbers kept exact; the claims only exercise integer numbers, so the
number payload is an `Int`). -/
inductive JValue where
  | null : JValue
  | bool (b : Bool) : JValue
  | num (n : Int) : JValue
  | str (s : String) : JValue
  | arr (l : List JValue) : JValue
  | obj (l : List (String × JValue)) : JValue

mutual

/-- Decidable equality of JSON values (the nested inductive prevents
automatic derivation). -/
def JValue.decEq : (a b : JValue) → Decidable (a = b)
  | .null, .null => isTrue rfl
  | .null, .bool _ => isFalse (fun h => JValue.noConfusion h)
  | .null, .num _ => isFalse (fun h => JValue.noConfusion h)
  | .null, .str _ => isFalse (fun h => JValue.noConfusion h)
  | .null, .arr _ => isFalse (fun h => JValue.noConfusion h)
  | .null, .obj _ => isFalse (fun h => JValue.noConfusion h)
  | .bool _, .null => isFalse (fun h => JValue.noConfusion h)
  | .bool a, .bool b =>
    if h : a = b then isTrue (by rw [h]) else
      isFalse (fun hh => h (JValue.bool.inj hh))
  | .bool _, .num _ => isFalse (fun h => JValue.noConfusion h)
  | .bool _, .str _ => isFalse (fun h => JValue.noConfusion h)
  | .bool _, .arr _ => isFalse (fun h => JValue.noConfusion h)
  | .bool _, .obj _ => isFalse (fun h => JValue.noConfusion h)
  | .num _, .null => isFalse (fun h => JValue.noConfusion h)
  | .num _, .bool _ => isFalse (fun h => JValue.noConfusion h)
  | .num a, .num b =>
    if h : a = b then isTrue (by rw [h]) else
      isFalse (fun hh => h (JValue.num.inj hh))
  | .num _, .str _ => isFalse (fun h => JValue.noConfusion h)
  | .num _, .arr _ => isFalse (fun h => JValue.noConfusion h)
  | .num _, .obj _ => isFalse (fun h => JValue.noConfusion h)
  | .str _, .null => isFalse (fun h => JValue.noConfusion h)
  | .str _, .bool _ => isFalse (fun h => JValue.noConfusion h)
  | .str _, .num _ => isFalse (fun h => JValue.noConfusion h)
  | .str a, .str b =>
    if h : a = b then isTrue (by rw [h]) else
      isFalse (fun hh => h (JValue.str.inj hh))
  | .str _, .arr _ => isFalse (fun h => JValue.noConfusion h)
  | .str _, .obj _ => isFalse (fun h => JValue.noConfusion h)
  | .arr _, .null => isFalse (fun h => JValue.noConfusion h)
  | .arr _, .bool _ => isFalse (fun h => JValue.noConfusion h)
  | .arr _, .num _ => isFalse (fun h => JValue.noConfusion h)
  | .arr _, .str _ => isFalse (fun h => JValue.noConfusion h)
  | .arr a, .arr b =>
    match JValue.decEqList a b with
    | isTrue h => isTrue (by rw [h])
    | isFalse h => isFalse (fun hh => h (JValue.arr.inj hh))
  | .arr _, .obj _ => isFalse (fun h => JValue.noConfusion h)
  | .obj _, .null => isFalse (fun h => JValue.noConfusion h)
  | .obj _, .bool _ => isFalse (fun h => JValue.noConfusion h)
  | .obj _, .num _ => isFalse (fun h => JValue.noConfusion h)
  | .obj _, .str _ => isFalse (fun h => JValue.noConfusion h)
  | .obj _, .arr _ => isFalse (fun h => JValue.noConfusion h)
  | .obj a, .obj b =>
    match JValue.decEqObj a b with
    | isTrue h => isTrue (by rw [h])
    | isFalse h => isFalse (fun hh => h (JValue.obj.inj hh))

/-- Decidable equality of JSON arrays. -/
def JValue.decEqList : (a b : List JValue) → Decidable (a = b)
  | [], [] => isTrue rfl
  | [], _ :: _ => isFalse (fun h => List.noConfusion h)
  | _ :: _, [] => isFalse (fun h => List.noConfusion h)
  | x :: xs, y :: ys =>
    match JValue.decEq x y with
    | isFalse h => isFalse (fun hh => h (List.cons.inj hh).1)
    | isTrue h1 =>
      match JValue.decEqList xs ys with
      | isTrue h2 => isTrue (by rw [h1, h2])
      | isFalse h => isFalse (fun hh => h (List.cons.inj hh).2)

/-- Decidable equality of JSON object member lists. -/
def JValue.decEqObj : (a b : List (String × JValue)) → Decidable (a = b)
  | [], [] => isTrue rfl
  | [], _ :: _ => isFalse (fun h => List.noConfusion h)
  | _ :: _, [] => isFalse (fun h => List.noConfusion h)
  | (k1, v1) :: xs, (k2, v2) :: ys =>
    if hk : k1 = k2 then
      match JValue.decEq v1 v2 with
      | isFalse h =>
        isFalse (fun hh => h (congrArg Prod.snd (List.cons.inj hh).1))
      | isTrue h1 =>
        match JValue.decEqObj xs ys with
        | isTrue h2 => isTrue (by rw [hk, h1, h2])
        | isFalse h => isFalse (fun hh => h (List.cons.inj hh).2)
    else
      isFalse (fun hh => hk (congrArg Prod.fst (List.cons.inj hh).1))

end

instance : DecidableEq JValue := JValue.decEq

/-- A raw JSON schema object (`map[string]interface{}` in Go). -/
def JObj : Type := List (String × JValue)

/-- Lookup of a key in a raw JSON object. -/
def jlookup : JObj → String → Option JValue
  | [], _ => none
  | (k, v) :: rest, key => if k = key then some v else jlookup rest key

/-- Modelled from the spec: `SchemaRef` is a lightweight back-reference
`(resource, fragment-location)`; its Go definition is outside the sources
at hand. -/
structure schemaRef where
  url : String
  floc : String
deriving DecidableEq

/-- Modelled from the spec: a loaded resource at a canonical base URL; only
the two fields the extension API reads (`url` and the fragment location
`floc`) are modelled, the Go struct lives outside the sources at hand. -/
structure resource where
  url : String
  floc : String
deriving DecidableEq

/-- The compiled schema node, restricted to the annotation fields the
claims are about (`Title`, `Description`, `Comment`, `Examples`,
`ReadOnly`, `WriteOnly` in Go). -/
structure Schema where
  Title : String := ""
  Description : String := ""
  Comment : String := ""
  Examples : List JValue := []
  ReadOnly : Bool := false
  WriteOnly : Bool := false
deriving DecidableEq

/-- The compiled schema node with every annotation field at its zero
value, as allocated by the compiler before population. -/
def emptySchema : Schema := {}

/-- A validation error as constructed through the extension API: keyword
path, structured keyword value, and formatted message. -/
structure ValidationError where
  keywordPath : String
  keywordValue : List JValue
  message : String
deriving DecidableEq

/-- Outcome of a Go call that may `panic`: either a normal result or a
panic with its message. -/
inductive GoOutcome (α : Type) where
  | ok (a : α) : GoOutcome α
  | panicked (msg : String) : GoOutcome α
deriving DecidableEq

/-- Whether a `GoOutcome` is a panic. -/
def GoOutcome.isPanicked {α : Type} : GoOutcome α → Bool
  | .ok _ => false
  | .panicked _ => true

/-- A dynamic Go value (`interface{}`) as stored in a `context.Context`
by this library: a context key, a string, a scope stack, or a JSON value. -/
inductive GoIface where
  | ctxKey (k : String) : GoIface
  | str (s : String) : GoIface
  | scopes (l : List schemaRef) : GoIface
  | json (v : JValue) : GoIface
deriving DecidableEq

/-- A Go `context.Context` restricted to its key/value behaviour: a chain
of `WithValue` layers, most recent first. -/
def Ctx : Type := List (GoIface × GoIface)

/-- `context.WithValue`: wrap the context with one more key/value pair. -/
def withValue (ctx : Ctx) (k v : GoIface) : Ctx := (k, v) :: ctx

/-- `ctx.Value(k)`: the value of the most recent layer carrying key `k`,
or `nil` (`none`) when no layer does. -/
def ctxValue : Ctx → GoIface → Option GoIface
  | [], _ => none
  | (k, v) :: rest, key => if k = key then some v else ctxValue rest key

/-- The `instance` context key (`instanceCtxKey` in Go). -/
def instanceCtxKey : GoIface := .ctxKey "instance"

/-- The `path` context key (`instancePathCtxKey` in Go). -/
def instancePathCtxKey : GoIface := .ctxKey "path"

/-- The `keyword_path` context key (`keywordPathCtxKey` in Go). -/
def keywordPathCtxKey : GoIface := .ctxKey "keyword_path"

/-- The `scopes` context key (`scopesCtxKey` in Go). -/
def scopesCtxKey : GoIface := .ctxKey "scopes"

/-- `GetInstance(ctx)`: returns `ctx.Value(instanceCtxKey)` unchanged
(`interface{}`, possibly `nil`); it performs no type assertion. -/
def GetInstance (ctx : Ctx) : Option GoIface :=
  ctxValue ctx instanceCtxKey

/-- `GetScopes(ctx)`: `ctx.Value(scopesCtxKey).([]schemaRef)` — the
non-comma-ok type assertion panics when the stored value is absent or of
another type. -/
def GetScopes (ctx : Ctx) : GoOutcome (List schemaRef) :=
  match ctxValue ctx scopesCtxKey with
  | some (.scopes l) => .ok l
  | _ => .panicked "interface conversion"

/-- `GetKeywordPath(ctx)`: `ctx.Value(keywordPathCtxKey).(string)` — the
non-comma-ok type assertion panics when the stored value is absent or of
another type. -/
def GetKeywordPath (ctx : Ctx) : GoOutcome String :=
  match ctxValue ctx keywordPathCtxKey with
  | some (.str s) => .ok s
  | _ => .panicked "interface conversion"

/-- `GetInstancePath(ctx)`: `ctx.Value(instancePathCtxKey).(string)` — the
non-comma-ok type assertion panics when the stored value is absent or of
another type. -/
def GetInstancePath (ctx : Ctx) : GoOutcome String :=
  match ctxValue ctx instancePathCtxKey with
  | some (.str s) => .ok s
  | _ => .panicked "interface conversion"

/-- `withValues(ctx, vals...)`: for `i := 1; i < len(vals); i += 2` wraps
`ctx` with the pair `(vals[i-1], vals[i])`; a trailing unpaired argument
falls through the loop untouched. -/
def withValues (ctx : Ctx) : List GoIface → Ctx
  | k :: v :: rest => withValues (withValue ctx k v) rest
  | _ => ctx

/-- The per-frame validation state (`validationResult` in Go; the struct
itself is defined outside the sources at hand and is modelled from the
spec: running set of unevaluated property names, running set of
unevaluated item indices, list of child errors). -/
structure validationResult where
  unevalProps : Finset String
  unevalItems : Finset Int
  errors : List ValidationError

/-- `ValidationContext`: the per-frame state together with the engine's
`validate`, `validateInplace` and `validationError` closures. -/
structure ValidationContext where
  result : validationResult
  validate : Ctx → Schema → String → JValue → String → Option ValidationError
  validateInplace : Ctx → Schema → String → Option ValidationError
  validationError : Ctx → String → List JValue → String → ValidationError

/-- `EvaluatedProp`: `delete(ctx.result.unevalProps, prop)`. -/
def ValidationContext.EvaluatedProp (ctx : ValidationContext) (prop : String) :
    ValidationContext :=
  { ctx with result := { ctx.result with unevalProps := ctx.result.unevalProps.erase prop } }

/-- `EvaluatedItem`: `delete(ctx.result.unevalItems, index)`. -/
def ValidationContext.EvaluatedItem (ctx : ValidationContext) (index : Int) :
    ValidationContext :=
  { ctx with result := { ctx.result with unevalItems := ctx.result.unevalItems.erase index } }

/-- `ValidationContext.Validate(ctx, s, spath, v, vpath)`: when `vpath` is
empty, validate in place on the same instance (ignoring `v`); otherwise
validate `v` at `vpath`. -/
def ValidationContext.Validate (vctx : ValidationContext) (ctx : Ctx) (s : Schema)
    (spath : String) (v : JValue) (vpath : String) : Option ValidationError :=
  if vpath = "" then vctx.validateInplace ctx s spath
  else vctx.validate ctx s spath v vpath

/-- `ValidationContext.Error(ctx, keywordPath, keywordValue, format, a...)`:
delegates to the engine's `validationError` closure (the `fmt`-style
formatting of `format` with `a...` is modelled by passing the formatted
message). -/
def ValidationContext.Error (vctx : ValidationContext) (ctx : Ctx)
    (keywordPath : String) (keywordValue : List JValue) (msg : String) :
    ValidationError :=
  vctx.validationError ctx keywordPath keywordValue msg

/-- The compiled form of an extension's custom keywords (`ExtSchema` is a
Go interface; the one implementation in the sources is `powerOfSchema`,
an `int64`). -/
inductive ExtSchema where
  | powerOf (n : Int) : ExtSchema
deriving DecidableEq

/-- The result of a Go call returning `(T, error)` that may also panic. -/
inductive GoResult (α : Type) where
  | ok (a : α) : GoResult α
  | err (msg : String) : GoResult α
  | panicked (msg : String) : GoResult α
deriving DecidableEq

/-- An extension's `Compile` hook
(`Compile(ctx, m) → (ExtSchema, error)`, where a nil `ExtSchema` is
`none`). -/
def ExtCompiler : Type := JObj → GoResult (Option ExtSchema)

/-- A registered extension: its meta-schema and its compiler. -/
structure extension where
  meta : Schema
  compiler : ExtCompiler

/-- The compiler, restricted to the state the claims are about: its
extension table (a Go map, modelled as a function to `Option`), its
`ExtractAnnotations` flag, and its `compileRef` method (defined outside
the sources at hand, hence kept abstract as a field). -/
structure Compiler where
  extensions : String → Option extension
  ExtractAnnotations : Bool
  compileRef : Ctx → resource → List schemaRef → String → resource → String →
    GoResult Schema

/-- `RegisterExtension(name, meta, ext)`:
`c.extensions[name] = extension{meta, ext}`. -/
def Compiler.RegisterExtension (c : Compiler) (name : String) (meta : Schema)
    (ext : ExtCompiler) : Compiler :=
  { c with extensions := fun n => if n = name then some ⟨meta, ext⟩ else c.extensions n }

/-- `CompilerContext`: compiler, current resource, active compilation
stack and the resource being compiled. -/
structure CompilerContext where
  c : Compiler
  r : resource
  stack : List schemaRef
  res : resource

/-- `CompilerContext.Compile(ctx, schPath, applicableOnSameInstance)`:
propagate the active stack only when the sub-schema applies to the same
instance, then delegate to `compileRef`. -/
def CompilerContext.Compile (cctx : CompilerContext) (ctx : Ctx) (schPath : String)
    (applicableOnSameInstance : Bool) : GoResult Schema :=
  let stack : List schemaRef := if applicableOnSameInstance then cctx.stack else []
  cctx.c.compileRef ctx cctx.r stack schPath cctx.res
    (cctx.r.url ++ cctx.res.floc ++ "/" ++ schPath)

/-- `CompilerContext.CompileRef(ctx, ref, refPath, applicableOnSameInstance)`:
propagate the active stack only when the referenced schema applies to the
same instance, then delegate to `compileRef` with the ref uri. -/
def CompilerContext.CompileRef (cctx : CompilerContext) (ctx : Ctx) (ref : String)
    (refPath : String) (applicableOnSameInstance : Bool) : GoResult Schema :=
  let stack : List schemaRef := if applicableOnSameInstance then cctx.stack else []
  cctx.c.compileRef ctx cctx.r stack refPath cctx.res ref

/-- `powerOfCompiler.Compile(cctx, m)`: when `m` carries `powerOf`, the
value is asserted to be a `json.Number` (a non-number panics the
non-comma-ok assertion) and its integer value becomes the compiled
`powerOfSchema`; otherwise nil is returned with no error. -/
def powerOfCompile (m : JObj) : GoResult (Option ExtSchema) :=
  match jlookup m "powerOf" with
  | some (.num n) => .ok (some (.powerOf n))
  | some _ => .panicked "interface conversion"
  | none => .ok none

/-- `fmt.Sprint` of an instance value as the `powerOf` validator prints
it (only numbers reach the format call). -/
def jvToString : JValue → String
  | .num n => toString n
  | .str s => s
  | .bool b => toString b
  | .null => "<nil>"
  | .arr _ => "<arr>"
  | .obj _ => "<obj>"

/-- The reduction loop of `powerOfSchema.Validate`
(`for n%pow == 0 { n = n/pow }`, Go `%` and `/` truncate toward zero),
embedded with fuel because the Go loop is unguarded (it does not
terminate for example at `n = 0`): `none` means the fuel ran out with the
loop still running. -/
def powLoop (pow : Int) : Nat → Int → Option Int
  | 0, _ => none
  | fuel + 1, n => if Int.tmod n pow = 0 then powLoop pow fuel (Int.tdiv n pow) else some n

/-- `powerOfSchema.Validate(ctx, vctx, v)`: non-numbers pass; a number is
reduced by the loop and accepted exactly when the remainder is `1`,
otherwise `vctx.Error(ctx, "powerOf", []interface{}{v, pow},
"%v not powerOf %v", v, pow)` is returned.  The outer `Option` is the
fuel of the embedded loop (`none` = the Go loop was still running). -/
def powerOfValidate (s : Int) (vctx : ValidationContext) (ctx : Ctx) (v : JValue)
    (fuel : Nat) : Option (Option ValidationError) :=
  match v with
  | .num n =>
    let pow : Int := s
    match powLoop pow fuel n with
    | none => none
    | some m =>
      if m ≠ 1 then
        some (some (vctx.Error ctx "powerOf" [v, .num pow]
          (jvToString v ++ " not powerOf " ++ toString pow)))
      else some none
  | _ => some none

/-- Modelled from the spec: the engine's error-construction closure
builds a `ValidationError` from the keyword path, the keyword value and
the formatted message (`validationError` is defined outside the sources
at hand). -/
def mkValidationError (keywordPath : String) (keywordValue : List JValue)
    (msg : String) : ValidationError :=
  ⟨keywordPath, keywordValue, msg⟩

/-- A validation context with empty per-frame state and trivial
sub-validation closures, using the spec-modelled error constructor. -/
def stdVCtx : ValidationContext :=
  { result := ⟨∅, ∅, []⟩
    validate := fun _ _ _ _ _ => none
    validateInplace := fun _ _ _ => none
    validationError := fun _ kp kv msg => mkValidationError kp kv msg }

/-- Modelled from the spec: `MustCompile` wraps `Compile` and converts a
failure into a panic (its Go body is outside the sources at hand). -/
def MustCompile (compile : String → GoResult Schema) (url : String) :
    GoOutcome Schema :=
  match compile url with
  | .ok s => .ok s
  | .err e => .panicked e
  | .panicked e => .panicked e

/-- One applicator step on a reference chain during compilation: the
keyword traversed and whether it applies its sub-schema to the same
instance value. -/
structure ChainEdge where
  kw : String
  sameInstance : Bool
deriving DecidableEq

/-- The `$ref` keyword that closes a reference chain; `$ref` applies to
the same instance value. -/
def refEdge : ChainEdge := ⟨"$ref", true⟩

/-- Modelled from the spec: evolution of the active compilation stack
along a chain of applicators (the compiler's walk is outside the sources
at hand).  Nodes are numbered along the chain; processing the edge out of
node `n` keeps the stack and pushes `n` when the edge applies to the same
instance, and starts from a fresh empty stack when the edge descends into
a child instance — exactly the stack selection the extension API performs
in `CompilerContext.Compile`. -/
def finalStack : List Nat → Nat → List ChainEdge → List Nat
  | stack, _, [] => stack
  | stack, n, e :: rest =>
    finalStack (if e.sameInstance then stack ++ [n] else []) (n + 1) rest

/-- Payload of the infinite-loop error for a chain closed by `$ref`: the
keywords traversed, joined, ending in `$ref`. -/
def chainPayload (edges : List ChainEdge) : String :=
  String.intercalate "/" ((edges ++ [refEdge]).map ChainEdge.kw)

/-- Outcome of compiling a reference chain: an infinite-loop error with
the keyword chain as payload, or normal termination with the in-progress
node returned as a back-edge. -/
inductive ChainOutcome where
  | infiniteLoop (payload : String) : ChainOutcome
  | backEdge : ChainOutcome
deriving DecidableEq

/-- Modelled from the spec: compiling a reference chain that starts at
node `0` and is closed by a `$ref` back to node `0`.  Compilation revisits
node `0`; if it is still on the active stack the compiler fails with the
infinite-loop error carrying the traversed keywords, otherwise the
already-allocated node is returned as a back-edge of the finite graph. -/
def compileChain (edges : List ChainEdge) : ChainOutcome :=
  if 0 ∈ finalStack [] 0 (edges ++ [refEdge]) then
    .infiniteLoop (chainPayload edges)
  else .backEdge

/-- Modelled from the spec: annotation extraction during compilation of a
raw schema object — the string at key `k`, or the zero value when absent
or not a string. -/
def rawString (m : JObj) (k : String) : String :=
  match jlookup m k with
  | some (.str s) => s
  | _ => ""

/-- Modelled from the spec: the boolean at key `k` of a raw schema
object, or the zero value when absent or not a boolean. -/
def rawBool (m : JObj) (k : String) : Bool :=
  match jlookup m k with
  | some (.bool b) => b
  | _ => false

/-- Modelled from the spec: the array at key `k` of a raw schema object,
or the zero value when absent or not an array. -/
def rawArr (m : JObj) (k : String) : List JValue :=
  match jlookup m k with
  | some (.arr l) => l
  | _ => []

/-- Modelled from the spec: population of the annotation fields of a
freshly allocated compiled schema node — the compiler fills `Title`,
`Description`, `Comment`, `Examples`, `ReadOnly` and `WriteOnly` from the
raw schema object exactly when `ExtractAnnotations` is enabled, and
leaves them at their zero values otherwise (the compiling code is outside
the sources at hand). -/
def extractAnnotationFields (extractAnnotations : Bool) (m : JObj)
    (sch : Schema) : Schema :=
  if extractAnnotations then
    { sch with
      Title := rawString m "title"
      Description := rawString m "description"
      Comment := rawString m "$comment"
      Examples := rawArr m "examples"
      ReadOnly := rawBool m "readOnly"
      WriteOnly := rawBool m "writeOnly" }
  else sch

/-- A compiler with no registered extensions and a failing `compileRef`,
used to instantiate universally quantified statements at a concrete
compiler. -/
def trivialCompiler : Compiler :=
  { extensions := fun _ => none
    ExtractAnnotations := false
    compileRef := fun _ _ _ _ _ _ => .err "not loaded" }

/-- A compiler context over `trivialCompiler` with an empty active stack,
used to instantiate universally quantified statements at a concrete
context. -/
def trivialCCtx : CompilerContext :=
  { c := trivialCompiler
    r := ⟨"test.json", ""⟩
    stack := []
    res := ⟨"test.json", ""⟩ }

theorem mem_finalStack (l : List ChainEdge) :
    ∀ (S : List Nat) (n m : Nat), m ∈ finalStack S n l → m ∈ S ∨ n ≤ m := by
  induction l with
  | nil =>
    intro S n m h
    rw [finalStack] at h
    exact Or.inl h
  | cons e rest ih =>
    intro S n m h
    rw [finalStack] at h
    cases hs : e.sameInstance with
    | true =>
      rw [hs] at h
      simp only [if_pos] at h
      rcases ih (S ++ [n]) (n + 1) m h with h' | h'
      · rcases List.mem_append.mp h' with h'' | h''
        · exact Or.inl h''
        · right
          have : m = n := List.mem_singleton.mp h''
          omega
      · right; omega
    | false =>
      rw [hs] at h
      simp only [if_neg, Bool.false_eq_true, not_false_iff] at h
      rcases ih [] (n + 1) m h with h' | h'
      · exact absurd h' (List.not_mem_nil m)
      · right; omega

theorem mem_finalStack_of_all (l : List ChainEdge) :
    ∀ (S : List Nat) (n m : Nat), l.all ChainEdge.sameInstance = true →
      m ∈ S → m ∈ finalStack S n l := by
  induction l with
  | nil =>
    intro S n m _ hm
    rw [finalStack]
    exact hm
  | cons e rest ih =>
    intro S n m hall hm
    rw [List.all_cons, Bool.and_eq_true] at hall
    rw [finalStack, hall.1, if_pos rfl]
    exact ih (S ++ [n]) (n + 1) m hall.2 (List.mem_append.mpr (Or.inl hm))

theorem zero_not_mem_finalStack (l : List ChainEdge) :
    ∀ (S : List Nat) (n : Nat), l.all ChainEdge.sameInstance = false →
      0 ∉ finalStack S n l := by
  induction l with
  | nil =>
    intro S n h
    rw [List.all_nil] at h
    exact absurd h (by simp)
  | cons e rest ih =>
    intro S n hall hmem
    rw [finalStack] at hmem
    cases hs : e.sameInstance with
    | false =>
      rw [hs] at hmem
      simp only [Bool.false_eq_true, if_false] at hmem
      rcases mem_finalStack rest [] (n + 1) 0 hmem with h | h
      · exact absurd h (List.not_mem_nil 0)
      · omega
    | true =>
      rw [hs, if_pos rfl] at hmem
      have hrest : rest.all ChainEdge.sameInstance = false := by
        rw [List.all_cons, hs, Bool.true_and] at hall
        exact hall
      exact ih (S ++ [n]) (n + 1) hrest hmem

theorem zero_mem_finalStack (l : List ChainEdge) (hne : l ≠ [])
    (hall : l.all ChainEdge.sameInstance = true) : 0 ∈ finalStack [] 0 l := by
  cases l with
  | nil => exact absurd rfl hne
  | cons e rest =>
    rw [List.all_cons, Bool.and_eq_true] at hall
    rw [finalStack, hall.1, if_pos rfl]
    exact mem_finalStack_of_all rest ([] ++ [0]) 1 0 hall.2 (by simp)

/-- Claim C1: for every reference chain closed by `$ref`, if every
applicator on the chain is same-instance, compilation terminates with an
`InfiniteLoopError` whose payload is the chain of keywords traversed,
ending in `$ref`; otherwise (some applicator descends into a child
instance) compilation terminates normally with the in-progress node
returned as a back-edge of the finite graph. -/
theorem cycle_safety (edges : List ChainEdge) :
    (edges.all ChainEdge.sameInstance = true →
      compileChain edges = ChainOutcome.infiniteLoop
        (String.intercalate "/" (edges.map ChainEdge.kw ++ ["$ref"]))) ∧
    (edges.all ChainEdge.sameInstance = false →
      compileChain edges = ChainOutcome.backEdge) := by
  constructor
  · intro hall
    have hall' : (edges ++ [refEdge]).all ChainEdge.sameInstance = true := by
      rw [List.all_append, hall, Bool.true_and]
      rfl
    have hmem : 0 ∈ finalStack [] 0 (edges ++ [refEdge]) :=
      zero_mem_finalStack _ (by simp) hall'
    rw [compileChain, if_pos hmem, chainPayload, List.map_append]
    rfl
  · intro hall
    have hall' : (edges ++ [refEdge]).all ChainEdge.sameInstance = false := by
      rw [List.all_append, hall, Bool.false_and]
    have hmem := zero_not_mem_finalStack _ [] 0 hall'
    rw [compileChain, if_neg hmem]

/-- Witness for C1: the chain `not/$ref` (all same-instance) fails with
the infinite-loop payload `not/$ref`, while the chain `properties/$ref`
(one descending applicator) compiles to a back-edge. -/
theorem cycle_safety_witness :
    compileChain [⟨"not", true⟩] = ChainOutcome.infiniteLoop "not/$ref" ∧
    compileChain [⟨"properties", false⟩] = ChainOutcome.backEdge :=
  ⟨((cycle_safety [⟨"not", true⟩]).1 (by decide)).trans (by decide),
   (cycle_safety [⟨"properties", false⟩]).2 (by decide)⟩

/-- Claim C5: `CompilerContext.Compile` and `CompilerContext.CompileRef`
pass the active compilation stack to `compileRef` exactly when
`applicableOnSameInstance` is true and pass the empty stack otherwise;
moreover a (sub-)compilation whose stack starts empty only ever carries
nodes allocated by itself (ids at least the fresh id `n`), so it can
never report an infinite loop through a node of the enclosing chain. -/
theorem stack_propagation (cctx : CompilerContext) (ctx : Ctx)
    (schPath ref refPath : String) (flag : Bool) :
    (cctx.Compile ctx schPath flag =
      cctx.c.compileRef ctx cctx.r (if flag then cctx.stack else []) schPath cctx.res
        (cctx.r.url ++ cctx.res.floc ++ "/" ++ schPath)) ∧
    (cctx.CompileRef ctx ref refPath flag =
      cctx.c.compileRef ctx cctx.r (if flag then cctx.stack else []) refPath cctx.res ref) ∧
    (flag = false →
      cctx.Compile ctx schPath flag =
        cctx.c.compileRef ctx cctx.r [] schPath cctx.res
          (cctx.r.url ++ cctx.res.floc ++ "/" ++ schPath)) ∧
    (∀ (edges : List ChainEdge) (n m : Nat), m ∈ finalStack [] n edges → n ≤ m) := by
  refine ⟨rfl, rfl, ?_, ?_⟩
  · intro h
    rw [h]
    rfl
  · intro edges n m hm
    rcases mem_finalStack edges [] n m hm with h | h
    · exact absurd h (List.not_mem_nil m)
    · exact h

/-- Witness for C5: at a concrete context, a non-same-instance
sub-compilation reaches `compileRef` with the empty stack, and in a chain
started with the empty stack at fresh id `1` the only stacked node is
`1` itself. -/
theorem stack_propagation_witness :
    trivialCCtx.Compile [] "properties/p" false =
      trivialCompiler.compileRef [] ⟨"test.json", ""⟩ [] "properties/p"
        ⟨"test.json", ""⟩ ("test.json" ++ "" ++ "/" ++ "properties/p") ∧
    (1 : Nat) ≤ 1 := by
  obtain ⟨-, -, h3, h4⟩ :=
    stack_propagation trivialCCtx [] "properties/p" "r" "rp" false
  exact ⟨h3 rfl, h4 [⟨"not", true⟩] 1 1 (by decide)⟩

/-- Claim C2: with the example `powerOf` extension, the raw schema
`{"powerOf": 10}` compiles to the extension node `powerOfSchema(10)`;
validating instance `100` returns nil and validating instance `111`
returns a `ValidationError` whose message is `111 not powerOf 10`. -/
theorem powerof_example :
    powerOfCompile [("powerOf", JValue.num 10)] =
      GoResult.ok (some (ExtSchema.powerOf 10)) ∧
    powerOfValidate 10 stdVCtx [] (JValue.num 100) 64 = some none ∧
    powerOfValidate 10 stdVCtx [] (JValue.num 111) 64 =
      some (some ⟨"powerOf", [JValue.num 111, JValue.num 10],
        "111 not powerOf 10"⟩) :=
  ⟨rfl, rfl, rfl⟩

/-- Claim C3: the extension `Compile` hook (the `powerOf` compiler, the
sole extension compiler of the sources) returns nil with no error on
every raw schema object not containing its keyword, and returns a
non-nil `ExtSchema` only when the keyword is present. -/
theorem ext_compile_nil (m : JObj) :
    (jlookup m "powerOf" = none → powerOfCompile m = GoResult.ok none) ∧
    (∀ r : ExtSchema, powerOfCompile m = GoResult.ok (some r) →
      jlookup m "powerOf" ≠ none) := by
  constructor
  · intro h
    rw [powerOfCompile, h]
  · intro r h hnone
    rw [powerOfCompile, hnone] at h
    exact Option.noConfusion (GoResult.ok.inj h)

/-- Witness for C3: a raw schema without `powerOf` compiles to nil, and
the raw schema `{"powerOf": 10}` (on which `Compile` returns a non-nil
node) does contain the keyword. -/
theorem ext_compile_nil_witness :
    powerOfCompile [("maxLength", JValue.num 3)] = GoResult.ok none ∧
    jlookup [("powerOf", JValue.num 10)] "powerOf" ≠ none :=
  ⟨(ext_compile_nil [("maxLength", JValue.num 3)]).1 (by simp [jlookup]),
   (ext_compile_nil [("powerOf", JValue.num 10)]).2 (ExtSchema.powerOf 10) rfl⟩

/-- Claim C4: `ValidationContext.Validate` performs same-instance
in-place validation (via `validateInplace`, ignoring `v`) exactly when
`vpath` is empty, and descended validation of `v` at `vpath` (via
`validate`) exactly when `vpath` is non-empty. -/
theorem validate_dispatch (vctx : ValidationContext) (ctx : Ctx) (s : Schema)
    (spath : String) (v w : JValue) (vpath : String) :
    (vpath = "" →
      vctx.Validate ctx s spath v vpath = vctx.validateInplace ctx s spath ∧
      vctx.Validate ctx s spath v vpath = vctx.Validate ctx s spath w vpath) ∧
    (vpath ≠ "" →
      vctx.Validate ctx s spath v vpath = vctx.validate ctx s spath v vpath) := by
  constructor
  · intro h
    subst h
    exact ⟨rfl, rfl⟩
  · intro h
    rw [ValidationContext.Validate, if_neg h]

/-- Witness for C4: with the trivial validation context, the empty
`vpath` routes to `validateInplace` and a non-empty `vpath` routes to
`validate`. -/
theorem validate_dispatch_witness :
    (stdVCtx.Validate [] emptySchema "allOf/0" JValue.null "" =
      stdVCtx.validateInplace [] emptySchema "allOf/0") ∧
    (stdVCtx.Validate [] emptySchema "items" JValue.null "/0" =
      stdVCtx.validate [] emptySchema "items" JValue.null "/0") :=
  ⟨((validate_dispatch stdVCtx [] emptySchema "allOf/0" JValue.null
      JValue.null "").1 rfl).1,
   (validate_dispatch stdVCtx [] emptySchema "items" JValue.null
      JValue.null "/0").2 (by decide)⟩

/-- Claim C8: `EvaluatedProp(p)` removes exactly `p` from the set of
unevaluated property names, leaving the other names, the unevaluated
item indices and the collected child errors unchanged; it is idempotent
and a no-op when `p` is absent; `EvaluatedItem(i)` behaves analogously on
the unevaluated item indices. -/
theorem evaluated_frame (vctx : ValidationContext) (p q : String) (i j : Int) :
    ((vctx.EvaluatedProp p).result.unevalProps =
      vctx.result.unevalProps.erase p) ∧
    (q ∈ (vctx.EvaluatedProp p).result.unevalProps ↔
      q ∈ vctx.result.unevalProps ∧ q ≠ p) ∧
    ((vctx.EvaluatedProp p).result.unevalItems = vctx.result.unevalItems) ∧
    ((vctx.EvaluatedProp p).result.errors = vctx.result.errors) ∧
    ((vctx.EvaluatedProp p).EvaluatedProp p = vctx.EvaluatedProp p) ∧
    (p ∉ vctx.result.unevalProps → vctx.EvaluatedProp p = vctx) ∧
    ((vctx.EvaluatedItem i).result.unevalItems =
      vctx.result.unevalItems.erase i) ∧
    (j ∈ (vctx.EvaluatedItem i).result.unevalItems ↔
      j ∈ vctx.result.unevalItems ∧ j ≠ i) ∧
    ((vctx.EvaluatedItem i).result.unevalProps = vctx.result.unevalProps) ∧
    ((vctx.EvaluatedItem i).result.errors = vctx.result.errors) ∧
    ((vctx.EvaluatedItem i).EvaluatedItem i = vctx.EvaluatedItem i) ∧
    (i ∉ vctx.result.unevalItems → vctx.EvaluatedItem i = vctx) := by
  obtain ⟨⟨props, items, errs⟩, f1, f2, f3⟩ := vctx
  refine ⟨rfl, ?_, rfl, rfl, ?_, ?_, rfl, ?_, rfl, rfl, ?_, ?_⟩
  · simp [ValidationContext.EvaluatedProp, Finset.mem_erase, and_comm]
  · simp [ValidationContext.EvaluatedProp, Finset.erase_idem]
  · intro h
    simp [ValidationContext.EvaluatedProp, Finset.erase_eq_of_not_mem h]
  · simp [ValidationContext.EvaluatedItem, Finset.mem_erase, and_comm]
  · simp [ValidationContext.EvaluatedItem, Finset.erase_idem]
  · intro h
    simp [ValidationContext.EvaluatedItem, Finset.erase_eq_of_not_mem h]

/-- Witness for C8: on the trivial context (whose unevaluated sets are
empty) marking an absent property or item evaluated is a no-op. -/
theorem evaluated_frame_witness :
    stdVCtx.EvaluatedProp "foo" = stdVCtx ∧
    stdVCtx.EvaluatedItem 0 = stdVCtx := by
  obtain ⟨-, -, -, -, -, h6, -, -, -, -, -, h12⟩ :=
    evaluated_frame stdVCtx "foo" "bar" 0 1
  exact ⟨h6 (by simp [stdVCtx]), h12 (by simp [stdVCtx])⟩

/-- Claim C7: the annotation fields of a compiled schema node (`Title`,
`Description`, `Comment`, `Examples`, `ReadOnly`, `WriteOnly`) are
populated from the raw schema exactly when `ExtractAnnotations` is
enabled; with the flag disabled every annotation field keeps its zero
value even when the raw schema supplies annotations. -/
theorem annotations_extraction (m : JObj) (sch : Schema) :
    (extractAnnotationFields false m sch = sch) ∧
    ((extractAnnotationFields false m emptySchema).Title = "" ∧
     (extractAnnotationFields false m emptySchema).Description = "" ∧
     (extractAnnotationFields false m emptySchema).Comment = "" ∧
     (extractAnnotationFields false m emptySchema).Examples = [] ∧
     (extractAnnotationFields false m emptySchema).ReadOnly = false ∧
     (extractAnnotationFields false m emptySchema).WriteOnly = false) ∧
    ((extractAnnotationFields true m sch).Title = rawString m "title" ∧
     (extractAnnotationFields true m sch).Description =
       rawString m "description" ∧
     (extractAnnotationFields true m sch).Comment = rawString m "$comment" ∧
     (extractAnnotationFields true m sch).Examples = rawArr m "examples" ∧
     (extractAnnotationFields true m sch).ReadOnly = rawBool m "readOnly" ∧
     (extractAnnotationFields true m sch).WriteOnly = rawBool m "writeOnly") := by
  refine ⟨rfl, ⟨rfl, rfl, rfl, rfl, rfl, rfl⟩, ?_⟩
  rw [extractAnnotationFields, if_pos rfl]
  exact ⟨rfl, rfl, rfl, rfl, rfl, rfl⟩

/-- Claim C10: `RegisterExtension(name, meta, ext)` maps `name` to the
pair `(meta, ext)` in the compiler's extension table, leaves every other
name unchanged, and a second registration under the same name replaces
the first. -/
theorem register_extension (c : Compiler) (name other : String)
    (m1 m2 : Schema) (e1 e2 : ExtCompiler) :
    ((c.RegisterExtension name m1 e1).extensions name = some ⟨m1, e1⟩) ∧
    (other ≠ name →
      (c.RegisterExtension name m1 e1).extensions other = c.extensions other) ∧
    (((c.RegisterExtension name m1 e1).RegisterExtension name m2 e2).extensions
        name = some ⟨m2, e2⟩) ∧
    (other ≠ name →
      ((c.RegisterExtension name m1 e1).RegisterExtension name m2 e2).extensions
        other = c.extensions other) := by
  refine ⟨?_, ?_, ?_, ?_⟩
  · rw [Compiler.RegisterExtension]
    simp
  · intro h
    rw [Compiler.RegisterExtension]
    simp [h]
  · rw [Compiler.RegisterExtension, Compiler.RegisterExtension]
    simp
  · intro h
    rw [Compiler.RegisterExtension, Compiler.RegisterExtension]
    simp [h]

/-- Witness for C10: registering `powerOf` on the trivial compiler stores
the pair under `powerOf` and leaves the entry for `maxLength` (absent)
unchanged. -/
theorem register_extension_witness :
    (trivialCompiler.RegisterExtension "powerOf" emptySchema
      powerOfCompile).extensions "powerOf" = some ⟨emptySchema, powerOfCompile⟩ ∧
    (trivialCompiler.RegisterExtension "powerOf" emptySchema
      powerOfCompile).extensions "maxLength" =
      trivialCompiler.extensions "maxLength" := by
  obtain ⟨h1, h2, -, -⟩ := register_extension trivialCompiler "powerOf"
    "maxLength" emptySchema emptySchema powerOfCompile powerOfCompile
  exact ⟨h1, h2 (by decide)⟩

theorem withValues_append :
    ∀ (vals : List GoIface) (ctx : Ctx) (l : List GoIface),
      vals.length % 2 = 0 →
      withValues ctx (vals ++ l) = withValues (withValues ctx vals) l
  | [], _, _, _ => rfl
  | [_], _, _, h => by simp at h
  | a :: b :: t, ctx, l, h => by
    have ht : t.length % 2 = 0 := by
      simp only [List.length_cons] at h
      omega
    show withValues (withValue ctx a b) (t ++ l) =
      withValues (withValues (withValue ctx a b) t) l
    exact withValues_append t (withValue ctx a b) l ht

/-- Claim C9: after `withValues`, each getter returns the most recently
written value for its key (round-trips for the instance, instance-path,
keyword-path and scopes keys); `withValues` pairs each even-position
argument with the following odd-position one, the last write for a key
wins, and a trailing unpaired argument is silently ignored. -/
theorem with_values_laws :
    (∀ (ctx : Ctx) (p : String),
      GetInstancePath (withValues ctx [instancePathCtxKey, .str p]) =
        GoOutcome.ok p) ∧
    (∀ (ctx : Ctx) (p : String),
      GetKeywordPath (withValues ctx [keywordPathCtxKey, .str p]) =
        GoOutcome.ok p) ∧
    (∀ (ctx : Ctx) (l : List schemaRef),
      GetScopes (withValues ctx [scopesCtxKey, .scopes l]) = GoOutcome.ok l) ∧
    (∀ (ctx : Ctx) (v : GoIface),
      GetInstance (withValues ctx [instanceCtxKey, v]) = some v) ∧
    (∀ (ctx : Ctx) (vals : List GoIface) (k v : GoIface),
      vals.length % 2 = 0 →
      ctxValue (withValues ctx (vals ++ [k, v])) k = some v) ∧
    (∀ (ctx : Ctx) (vals : List GoIface) (x : GoIface),
      vals.length % 2 = 0 →
      withValues ctx (vals ++ [x]) = withValues ctx vals) := by
  refine ⟨?_, ?_, ?_, ?_, ?_, ?_⟩
  · intro ctx p
    show GetInstancePath (withValue ctx instancePathCtxKey (.str p)) = .ok p
    rw [GetInstancePath, withValue, ctxValue, if_pos rfl]
  · intro ctx p
    show GetKeywordPath (withValue ctx keywordPathCtxKey (.str p)) = .ok p
    rw [GetKeywordPath, withValue, ctxValue, if_pos rfl]
  · intro ctx l
    show GetScopes (withValue ctx scopesCtxKey (.scopes l)) = .ok l
    rw [GetScopes, withValue, ctxValue, if_pos rfl]
  · intro ctx v
    show GetInstance (withValue ctx instanceCtxKey v) = some v
    rw [GetInstance, withValue, ctxValue, if_pos rfl]
  · intro ctx vals k v h
    rw [withValues_append vals ctx [k, v] h]
    show ctxValue (withValue (withValues ctx vals) k v) k = some v
    rw [withValue, ctxValue, if_pos rfl]
  · intro ctx vals x h
    rw [withValues_append vals ctx [x] h]
    rfl

/-- Witness for C9: a concrete round-trip through the instance-path key,
a later duplicate write for the same key winning, and a trailing
unpaired argument being ignored. -/
theorem with_values_laws_witness :
    GetInstancePath (withValues [] [instancePathCtxKey, .str "/a"]) =
      GoOutcome.ok "/a" ∧
    ctxValue (withValues []
        ([instancePathCtxKey, .str "/old"] ++ [instancePathCtxKey, .str "/new"]))
      instancePathCtxKey = some (.str "/new") ∧
    withValues [] ([instancePathCtxKey, .str "/a"] ++ [instanceCtxKey]) =
      withValues [] [instancePathCtxKey, .str "/a"] := by
  obtain ⟨h1, -, -, -, h5, h6⟩ := with_values_laws
  exact ⟨h1 [] "/a",
    h5 [] [instancePathCtxKey, .str "/old"] instancePathCtxKey (.str "/new")
      (by simp),
    h6 [] [instancePathCtxKey, .str "/a"] instanceCtxKey (by simp)⟩

/-- Counterexample for C6: on a context in which the corresponding key
was never set, `GetScopes`, `GetKeywordPath` and `GetInstancePath` panic
(the non-comma-ok type assertion on a nil `interface{}` fails), so the
claim that they never panic for any context argument is false. -/
theorem getters_panic_on_fresh_context :
    (GetScopes []).isPanicked = true ∧
    (GetKeywordPath []).isPanicked = true ∧
    (GetInstancePath []).isPanicked = true :=
  ⟨rfl, rfl, rfl⟩

/-- Claim C6 (amended): `MustCompile` panics exactly when the wrapped
`Compile` call fails; `GetInstance` never panics (it returns nil when
the key is unset); `GetScopes`, `GetKeywordPath` and `GetInstancePath`
return the stored value without panicking whenever the key was set by
the library, and panic exactly on contexts where the key is absent. -/
theorem must_compile_and_getters :
    (∀ (compile : String → GoResult Schema) (url : String),
      (MustCompile compile url).isPanicked = true ↔
        ∀ s : Schema, compile url ≠ GoResult.ok s) ∧
    (∀ ctx : Ctx, ctxValue ctx instanceCtxKey = none → GetInstance ctx = none) ∧
    (∀ (ctx : Ctx) (l : List schemaRef),
      GetScopes (withValue ctx scopesCtxKey (.scopes l)) = GoOutcome.ok l) ∧
    (∀ (ctx : Ctx) (s : String),
      GetKeywordPath (withValue ctx keywordPathCtxKey (.str s)) =
        GoOutcome.ok s) ∧
    (∀ (ctx : Ctx) (s : String),
      GetInstancePath (withValue ctx instancePathCtxKey (.str s)) =
        GoOutcome.ok s) ∧
    (∀ ctx : Ctx, ctxValue ctx scopesCtxKey = none →
      (GetScopes ctx).isPanicked = true) ∧
    (∀ ctx : Ctx, ctxValue ctx keywordPathCtxKey = none →
      (GetKeywordPath ctx).isPanicked = true) ∧
    (∀ ctx : Ctx, ctxValue ctx instancePathCtxKey = none →
      (GetInstancePath ctx).isPanicked = true) := by
  refine ⟨?_, ?_, ?_, ?_, ?_, ?_, ?_, ?_⟩
  · intro compile url
    cases h : compile url with
    | ok s =>
      rw [MustCompile, h]
      constructor
      · intro hh
        exact absurd hh (by simp [GoOutcome.isPanicked])
      · intro hh
        exact absurd rfl (hh s)
    | err e =>
      rw [MustCompile, h]
      exact ⟨fun _ s hh => GoResult.noConfusion hh, fun _ => rfl⟩
    | panicked e =>
      rw [MustCompile, h]
      exact ⟨fun _ s hh => GoResult.noConfusion hh, fun _ => rfl⟩
  · intro ctx h
    rw [GetInstance, h]
  · intro ctx l
    rw [GetScopes, withValue, ctxValue, if_pos rfl]
  · intro ctx s
    rw [GetKeywordPath, withValue, ctxValue, if_pos rfl]
  · intro ctx s
    rw [GetInstancePath, withValue, ctxValue, if_pos rfl]
  · intro ctx h
    rw [GetScopes, h]
    rfl
  · intro ctx h
    rw [GetKeywordPath, h]
    rfl
  · intro ctx h
    rw [GetInstancePath, h]
    rfl

/-- Witness for C6 (amended): a failing compile makes `MustCompile`
panic, a succeeding one does not; `GetInstance` on a fresh context
returns nil; `GetScopes` round-trips a set scope stack and panics on a
fresh context. -/
theorem must_compile_and_getters_witness :
    (MustCompile (fun _ => GoResult.err "schema not found") "x.json").isPanicked
      = true ∧
    GetInstance [] = none ∧
    GetScopes (withValue [] scopesCtxKey (.scopes [])) = GoOutcome.ok [] ∧
    (GetScopes []).isPanicked = true := by
  obtain ⟨h1, h2, h3, -, -, h6, -, -⟩ := must_compile_and_getters
  refine ⟨(h1 (fun _ => GoResult.err "schema not found") "x.json").mpr ?_,
    h2 [] rfl, h3 [] [], h6 [] rfl⟩
  intro s hh
  exact GoResult.noConfusion hh
